import Mathlib

/-!
Shallow embedding of the batch text-normalization pipeline of
`src/app.py` (fragtalkers): chunking, response reconciliation,
job extraction and merge-back.  Python strings are modelled as
`List Char`; only the ASCII fragment of Python's Unicode-aware
string predicates is modelled (every string the program builds or
compares against in this pipeline is ASCII).
-/

set_option autoImplicit false

/-- Python strings, modelled as lists of characters. -/
abbrev Str := List Char

/-- Coerce a Lean string literal into the model. -/
def str (s : String) : Str := s.data

/-- Python `str.isspace` restricted to ASCII: the characters stripped by
`str.strip()` and matched by the regex class `\s`. -/
def pyIsSpace (c : Char) : Bool :=
  c = ' ' || c = '\t' || c = '\n' || c = '\x0b' || c = '\x0c' || c = '\r' ||
  c = '\x1c' || c = '\x1d' || c = '\x1e' || c = '\x1f'

/-- Python `str.lstrip()` (ASCII whitespace). -/
def pyLStrip (s : Str) : Str := s.dropWhile pyIsSpace

/-- Python `str.rstrip()` (ASCII whitespace). -/
def pyRStrip (s : Str) : Str := (s.reverse.dropWhile pyIsSpace).reverse

/-- Python `str.strip()` (ASCII whitespace). -/
def pyStrip (s : Str) : Str := pyRStrip (pyLStrip s)

/-- Python `str.lower()` restricted to ASCII letters. -/
def pyLower (s : Str) : Str :=
  s.map fun c => if 'A' ≤ c ∧ c ≤ 'Z' then Char.ofNat (c.toNat + 32) else c

/-- The ASCII line boundaries recognised by Python `str.splitlines`
(`\r\n` is additionally treated as a single boundary). -/
def isLineBreak (c : Char) : Bool :=
  c = '\n' || c = '\r' || c = '\x0b' || c = '\x0c' ||
  c = '\x1c' || c = '\x1d' || c = '\x1e'

/-- Python `str.splitlines()`: split at line boundaries, no trailing empty
line for a terminal boundary, empty string gives no lines. -/
def splitlines : Str → List Str
  | [] => []
  | '\r' :: '\n' :: rest => [] :: splitlines rest
  | c :: rest =>
    if isLineBreak c then [] :: splitlines rest
    else
      match splitlines rest with
      | [] => [[c]]
      | l :: ls => (c :: l) :: ls

/-- Greedy match of the regex fragment `\s*\n` against the front of `s`
(the tail of the patterns `^(3 backticks)csv\s*\n` and
`^(3 backticks)\s*\n` of src/app.py lines 549-550): `some r` is the rest
of the string after the longest whitespace run that ends in a newline. -/
def greedyWsNl : Str → Option Str
  | [] => none
  | c :: rest =>
    if pyIsSpace c then
      match greedyWsNl rest with
      | some r => some r
      | none => if c = '\n' then some rest else none
    else none

/-- Line 549 of src/app.py: if the lowered text starts with a csv code
fence, remove the regex match of the fence marker line. -/
def stripFenceCsv (s : Str) : Str :=
  if (str ("```csv")).isPrefixOf (pyLower s) then
    match greedyWsNl (s.drop 6) with
    | some r => r
    | none => s
  else s

/-- Line 550 of src/app.py: if the lowered text starts with a bare code
fence, remove the regex match of the fence marker line. -/
def stripFenceBare (s : Str) : Str :=
  if (str ("```")).isPrefixOf (pyLower s) then
    match greedyWsNl (s.drop 3) with
    | some r => r
    | none => s
  else s

/-- Line 551 of src/app.py: if the text ends with the three fence
characters, drop them and strip the remainder. -/
def stripFenceEnd (s : Str) : Str :=
  if (str ("```")).isSuffixOf s then pyStrip (s.take (s.length - 3)) else s

/-- Lines 549-551 of src/app.py, in source order. -/
def stripFences (s : Str) : Str := stripFenceEnd (stripFenceBare (stripFenceCsv s))

/-- Lines 548 and 553-555 of src/app.py: strip the raw model output,
remove code fences, split into lines, and drop the first line exactly
when, stripped and lowered, it equals the column type token. -/
def dataLines (columnType : Str) (rawContent : Str) : List Str :=
  let lines := splitlines (stripFences (pyStrip rawContent))
  if lines ≠ [] ∧ pyLower (pyStrip (lines.headD [])) = columnType then lines.tail
  else lines

/-- Line 555 of src/app.py combined with lines 557-559: each data line is
stripped; an empty parse against a non-empty chunk falls back to the
original chunk values. -/
def parsedList (columnType : Str) (chunk : List Str) (rawContent : Str) : List Str :=
  if (dataLines columnType rawContent).map pyStrip = [] ∧ chunk ≠ [] then chunk
  else (dataLines columnType rawContent).map pyStrip

/-- Lines 561-569 of src/app.py: truncate an over-long parse to the chunk
length, pad an under-long parse with the tail of the original chunk. -/
def reconcileParsed (chunk parsed : List Str) : List Str :=
  if parsed.length > chunk.length then parsed.take chunk.length
  else if parsed.length < chunk.length then parsed ++ chunk.drop parsed.length
  else parsed

/-- Lines 548-570 of src/app.py: the full reconciliation of one raw model
response against the chunk it answers. -/
def reconcile (columnType : Str) (chunk : List Str) (rawContent : Str) : List Str :=
  reconcileParsed chunk (parsedList columnType chunk rawContent)

/-- Lines 546-573 of src/app.py: one loop iteration's produced values.
`none` models the service call raising an exception, in which case the
`except` branch extends the results with the original chunk values. -/
def processChunk (columnType : Str) (chunk : List Str) (resp : Option Str) : List Str :=
  match resp with
  | some raw => reconcile columnType chunk raw
  | none => chunk

/-- Lines 528-576 of src/app.py: the per-job loop over chunks, carrying the
accumulated corrected values and the `chunks_done` counter, which is
incremented after every chunk whether or not the service call succeeded. -/
def runJob (columnType : Str) : List (List Str × Option Str) → List Str × Nat → List Str × Nat
  | [], acc => acc
  | (chunk, resp) :: rest, (vals, done) =>
    runJob columnType rest (vals ++ processChunk columnType chunk resp, done + 1)

/-- Line 371 of src/app.py. -/
def CHUNK_BRAND : Nat := 70

/-- Line 372 of src/app.py. -/
def CHUNK_DESCRIPTION : Nat := 30

/-- Line 520 of src/app.py: the chunk size selected by the column type. -/
def chunkSize (columnType : Str) : Nat :=
  if columnType = str ("brand") then CHUNK_BRAND else CHUNK_DESCRIPTION

/-- Lines 528-530 of src/app.py: the loop `for start in range(0, len(values),
size)` producing the slice `values[start : min(start+size, len(values))]`
each iteration.  `fuel` bounds the number of iterations; `values.length`
iterations always suffice for a positive size. -/
def chunkListAux (size : Nat) : Nat → List Str → List (List Str)
  | _, [] => []
  | 0, _ :: _ => []
  | fuel + 1, x :: xs => ((x :: xs).take size) :: chunkListAux size fuel ((x :: xs).drop size)

/-- Lines 528-530 of src/app.py: split a job's values into chunks. -/
def chunkList (size : Nat) (values : List Str) : List (List Str) :=
  chunkListAux size values.length values

/-- Lines 488 and 494 of src/app.py: a cell participates in a job when it
is non-null and its stringified value is non-blank after stripping. -/
def eligible (cell : Option Str) : Bool :=
  match cell with
  | none => false
  | some v => pyStrip v ≠ []

/-- Lines 488-489 of src/app.py: the row positions of a column whose cells
are eligible, in ascending original order. -/
def jobPositions (col : List (Option Str)) : List Nat :=
  (List.range col.length).filter fun i => eligible (col.getD i none)

/-- Line 490 of src/app.py: the stringified cell values at the eligible
positions, index-aligned with `jobPositions`. -/
def jobValues (col : List (Option Str)) : List Str :=
  (jobPositions col).map fun i => (col.getD i none).getD []

/-- Lines 580-587 of src/app.py: write each corrected value at its
position; a position outside the column (the `not in df_target.index`
guard) is skipped, which is exactly `List.set` out of range. -/
def writeVals : List (Nat × Str) → List (Option Str) → List (Option Str)
  | [], col => col
  | (i, v) :: rest, col => writeVals rest (col.set i (some v))

/-- Lines 578-589 of src/app.py: the merge-back guard.  Corrected values
are written only when their count equals the position count; otherwise
the column is left untouched. -/
def writeBack (col : List (Option Str)) (positions : List Nat) (corrected : List Str) :
    List (Option Str) :=
  if positions.length = corrected.length then writeVals (positions.zip corrected) col
  else col

/-- Line 532 of src/app.py: the newline/carriage-return collapse applied to
each value when building the prompt payload (and only there). -/
def collapseForPrompt (v : Str) : Str :=
  v.map fun c => if c = '\n' then ' ' else if c = '\r' then ' ' else c

/-! ### Helper lemmas -/

theorem reconcileParsed_length (chunk parsed : List Str) :
    (reconcileParsed chunk parsed).length = chunk.length := by
  unfold reconcileParsed
  split_ifs with h1 h2
  · simp
    omega
  · simp
    omega
  · omega

theorem reconcileParsed_gt (chunk parsed : List Str) (h : parsed.length > chunk.length) :
    reconcileParsed chunk parsed = parsed.take chunk.length := by
  unfold reconcileParsed
  rw [if_pos h]

theorem reconcileParsed_le (chunk parsed : List Str) (h : parsed.length ≤ chunk.length) :
    reconcileParsed chunk parsed = parsed ++ chunk.drop parsed.length := by
  unfold reconcileParsed
  split_ifs with h1 h2
  · omega
  · rfl
  · have he : parsed.length = chunk.length := by omega
    rw [he, List.drop_length, List.append_nil]

theorem parsedList_of_ne_nil (columnType : Str) (chunk : List Str) (raw : Str)
    (h : (dataLines columnType raw).map pyStrip ≠ []) :
    parsedList columnType chunk raw = (dataLines columnType raw).map pyStrip := by
  unfold parsedList
  rw [if_neg]
  intro hc
  exact h hc.1

theorem reconcile_of_empty_parse (columnType : Str) (chunk : List Str) (raw : Str)
    (hc : chunk ≠ []) (hd : (dataLines columnType raw).map pyStrip = []) :
    reconcile columnType chunk raw = chunk := by
  rw [reconcile, parsedList, if_pos ⟨hd, hc⟩]
  unfold reconcileParsed
  rw [if_neg (lt_irrefl _), if_neg (lt_irrefl _)]

theorem isPrefixOf_trans {a b c : Str} (hab : a.isPrefixOf b) (hbc : b.isPrefixOf c) :
    a.isPrefixOf c := by
  rw [List.isPrefixOf_iff_prefix] at *
  exact hab.trans hbc

example : splitlines (str ("a\nb")) = [str ("a"), str ("b")] := by decide
example : splitlines (str ("a\n")) = [str ("a")] := by decide
example : splitlines (str ("")) = [] := by decide
example : splitlines (str ("a\r\nb\n\n")) = [str ("a"), str ("b"), str ("")] := by decide
example : pyStrip (str ("  a b\t")) = str ("a b") := by decide
example : pyLower (str ("BrAnD")) = str ("brand") := by decide
example : stripFences (str ("```csv\nbrand\nX\n```")) = str ("brand\nX") := by decide
example : stripFences (str ("```CSV  \nX")) = str ("X") := by decide
example : stripFences (str ("```json\nX")) = str ("```json\nX") := by decide
example : stripFences (str ("A\nB```")) = str ("A\nB") := by decide
example :
    reconcile (str ("brand")) [str ("A"), str ("B"), str ("C")] (str ("brand\nX")) =
      [str ("X"), str ("B"), str ("C")] := by decide
example :
    reconcile (str ("brand")) [str ("A"), str ("B"), str ("C")] (str ("brand\nX\nY\nZ\nW")) =
      [str ("X"), str ("Y"), str ("Z")] := by decide
example :
    reconcile (str ("brand")) [str ("A"), str ("B")] (str ("")) =
      [str ("A"), str ("B")] := by decide
example : chunkList 2 [str ("a"), str ("b"), str ("c")] =
    [[str ("a"), str ("b")], [str ("c")]] := by decide

/-! ### Claims -/

/-- C1: for every batch of N original values (N at least 1) and every raw
response text, the reconciliation procedure of src/app.py lines 548-570
produces exactly N strings. -/
theorem spec_C1 (columnType : Str) (chunk : List Str) (rawContent : Str)
    (_h : 1 ≤ chunk.length) :
    (reconcile columnType chunk rawContent).length = chunk.length := by
  rw [reconcile]
  exact reconcileParsed_length _ _

theorem spec_C1_witness :
    1 ≤ ([str ("A")] : List Str).length ∧
    (reconcile (str ("brand")) [str ("A")] (str ("```"))).length =
      ([str ("A")] : List Str).length :=
  ⟨by decide, spec_C1 (str ("brand")) [str ("A")] (str ("```")) (by decide)⟩

/-- C2: after fence/header stripping, an over-long parse is truncated to
the batch length and an under-long parse is padded with the original
batch values taken positionally from the tail; in particular, for batch
["A","B","C"] and raw response "brand\nX" the result is ["X","B","C"],
and for "brand\nX\nY\nZ\nW" it is ["X","Y","Z"]. -/
theorem spec_C2 :
    (∀ (columnType : Str) (chunk : List Str) (raw : Str),
      (((dataLines columnType raw).map pyStrip).length > chunk.length →
        reconcile columnType chunk raw =
          ((dataLines columnType raw).map pyStrip).take chunk.length) ∧
      (((dataLines columnType raw).map pyStrip).length ≤ chunk.length →
        reconcile columnType chunk raw =
          (dataLines columnType raw).map pyStrip ++
            chunk.drop ((dataLines columnType raw).map pyStrip).length)) ∧
    reconcile (str ("brand")) [str ("A"), str ("B"), str ("C")] (str ("brand\nX")) =
      [str ("X"), str ("B"), str ("C")] ∧
    reconcile (str ("brand")) [str ("A"), str ("B"), str ("C")] (str ("brand\nX\nY\nZ\nW")) =
      [str ("X"), str ("Y"), str ("Z")] := by
  refine ⟨fun columnType chunk raw => ⟨fun hgt => ?_, fun hle => ?_⟩, by decide, by decide⟩
  · have hne : (dataLines columnType raw).map pyStrip ≠ [] := by
      intro h0
      rw [h0] at hgt
      simp at hgt
    rw [reconcile, parsedList_of_ne_nil _ _ _ hne]
    exact reconcileParsed_gt _ _ hgt
  · by_cases h0 : (dataLines columnType raw).map pyStrip = []
    · rw [h0, List.nil_append, List.length_nil, List.drop_zero]
      by_cases hc : chunk = []
      · subst hc
        rw [reconcile, parsedList, if_neg (by intro h; exact h.2 rfl)]
        rw [h0]
        rfl
      · exact reconcile_of_empty_parse _ _ _ hc h0
    · rw [reconcile, parsedList_of_ne_nil _ _ _ h0]
      exact reconcileParsed_le _ _ hle

theorem spec_C2_witness :
    reconcile (str ("brand")) [str ("A")] (str ("X\nY")) =
      ((dataLines (str ("brand")) (str ("X\nY"))).map pyStrip).take
        (([str ("A")] : List Str).length) ∧
    reconcile (str ("brand")) [str ("A"), str ("B")] (str ("X")) =
      (dataLines (str ("brand")) (str ("X"))).map pyStrip ++
        ([str ("A"), str ("B")] : List Str).drop
          ((dataLines (str ("brand")) (str ("X"))).map pyStrip).length :=
  ⟨(spec_C2.1 (str ("brand")) [str ("A")] (str ("X\nY"))).1 (by decide),
   (spec_C2.1 (str ("brand")) [str ("A"), str ("B")] (str ("X"))).2 (by decide)⟩

/-- C3: the first line of the fence-stripped response is dropped if and
only if, whitespace-trimmed and lowered, it equals the column type token;
a response whose first line does not match keeps all its lines as data. -/
theorem spec_C3 (columnType l0 : Str) (rest : List Str) (raw : Str)
    (h : splitlines (stripFences (pyStrip raw)) = l0 :: rest) :
    (pyLower (pyStrip l0) = columnType → dataLines columnType raw = rest) ∧
    (pyLower (pyStrip l0) ≠ columnType → dataLines columnType raw = l0 :: rest) := by
  have hd : dataLines columnType raw =
      if pyLower (pyStrip l0) = columnType then rest else l0 :: rest := by
    simp only [dataLines]
    rw [h]
    simp
  rw [hd]
  constructor
  · intro he
    rw [if_pos he]
  · intro he
    rw [if_neg he]

theorem spec_C3_witness :
    dataLines (str ("brand")) (str ("brand\nX")) = [str ("X")] :=
  (spec_C3 (str ("brand")) (str ("brand")) [str ("X")] (str ("brand\nX")) (by decide)).1
    (by decide)

theorem stripFences_of_no_fence (s : Str)
    (h1 : (str ("```")).isPrefixOf (pyLower s) = false)
    (h2 : (str ("```")).isSuffixOf s = false) :
    stripFences s = s := by
  have hcsv : stripFenceCsv s = s := by
    unfold stripFenceCsv
    rw [if_neg]
    intro hc
    have : (str ("```")).isPrefixOf (pyLower s) :=
      isPrefixOf_trans (a := str ("```")) (by decide) hc
    rw [h1] at this
    exact Bool.false_ne_true this
  have hbare : stripFenceBare s = s := by
    unfold stripFenceBare
    rw [if_neg]
    intro hc
    rw [h1] at hc
    exact Bool.false_ne_true hc
  have hend : stripFenceEnd s = s := by
    unfold stripFenceEnd
    rw [if_neg]
    intro hc
    rw [h2] at hc
    exact Bool.false_ne_true hc
  rw [stripFences, hcsv, hbare, hend]

/-- C4 counterexample: the raw response "X\nY" followed by three backticks
does not end with a line that is a bare fence token (its last line is "Y"
followed by the backticks), yet the code strips the three trailing
backtick characters, changing the data lines — refuting the claim that a
trailing fence is stripped exactly when the response ends with a bare
fence line. -/
theorem spec_C4_counterexample :
    splitlines (str ("X\nY```")) = [str ("X"), str ("Y```")] ∧
    str ("Y```") ≠ str ("```") ∧
    stripFences (str ("X\nY```")) = str ("X\nY") ∧
    dataLines (str ("brand")) (str ("X\nY```")) = [str ("X"), str ("Y")] := by
  refine ⟨by decide, by decide, by decide, by decide⟩

/-- C4 (amended): step 1 strips a leading fence line only when the
response starts with "```csv" (case-insensitive) or a bare "```",
followed by optional whitespace and then a newline; a leading fence with
an unhandled annotation (such as "```json") is left unchanged, and a
response with no leading or trailing fence characters is unchanged.  The
trailing fence is stripped whenever the text merely ends with the three
characters "```" — even mid-line — followed by a whitespace strip, not
only when the last line is a bare fence token. -/
theorem spec_C4_amended :
    (∀ s : Str, (str ("```")).isPrefixOf (pyLower s) = false →
      (str ("```")).isSuffixOf s = false → stripFences s = s) ∧
    stripFences (str ("```csv\nA\nB\n```")) = str ("A\nB") ∧
    stripFences (str ("```CSV \nA")) = str ("A") ∧
    stripFences (str ("```\nA")) = str ("A") ∧
    stripFences (str ("```json\nA")) = str ("```json\nA") ∧
    stripFences (str ("A\n```\nB")) = str ("A\n```\nB") ∧
    stripFences (str ("X\nY```")) = str ("X\nY") :=
  ⟨stripFences_of_no_fence, by decide, by decide, by decide, by decide, by decide, by decide⟩

theorem spec_C4_amended_witness :
    (str ("```")).isPrefixOf (pyLower (str ("hello"))) = false ∧
    (str ("```")).isSuffixOf (str ("hello")) = false ∧
    stripFences (str ("hello")) = str ("hello") :=
  ⟨by decide, by decide, spec_C4_amended.1 (str ("hello")) (by decide) (by decide)⟩

theorem runJob_eq (columnType : Str) (work : List (List Str × Option Str))
    (vals : List Str) (done : Nat) :
    runJob columnType work (vals, done) =
      (vals ++ (work.map fun p => processChunk columnType p.1 p.2).flatten,
        done + work.length) := by
  induction work generalizing vals done with
  | nil => simp [runJob]
  | cons p rest ih =>
    obtain ⟨chunk, resp⟩ := p
    rw [runJob, ih]
    simp [List.append_assoc]
    omega

/-- C5: if the service call for a batch raises (modelled by a `none`
response), the produced values for that batch are the original chunk
values verbatim, and the loop keeps processing the surrounding batches
unchanged rather than aborting. -/
theorem spec_C5 (columnType : Str) (pre post : List (List Str × Option Str))
    (chunk : List Str) :
    (runJob columnType (pre ++ (chunk, none) :: post) ([], 0)).1 =
      (runJob columnType pre ([], 0)).1 ++ chunk ++ (runJob columnType post ([], 0)).1 := by
  simp [runJob_eq, processChunk, List.append_assoc]

/-- C6: an empty parse after fence and header stripping against a
non-empty chunk yields the original chunk values unchanged, and every
chunk — this fallback included — increments the completed-chunks counter
by exactly one. -/
theorem spec_C6 :
    (∀ (columnType : Str) (chunk : List Str) (raw : Str),
      chunk ≠ [] → dataLines columnType raw = [] →
      reconcile columnType chunk raw = chunk) ∧
    (∀ (columnType : Str) (work : List (List Str × Option Str))
      (vals : List Str) (done : Nat),
      (runJob columnType work (vals, done)).2 = done + work.length) := by
  constructor
  · intro columnType chunk raw hc hd
    exact reconcile_of_empty_parse _ _ _ hc (by rw [hd]; rfl)
  · intro columnType work vals done
    rw [runJob_eq]

theorem spec_C6_witness :
    reconcile (str ("brand")) [str ("A")] (str ("")) = [str ("A")] :=
  spec_C6.1 (str ("brand")) [str ("A")] (str ("")) (by decide) (by decide)

theorem chunkListAux_nil (size fuel : Nat) : chunkListAux size fuel [] = [] := by
  cases fuel <;> rfl

theorem chunkListAux_flatten (size : Nat) (hs : 0 < size) :
    ∀ (fuel : Nat) (l : List Str), l.length ≤ fuel →
      (chunkListAux size fuel l).flatten = l := by
  intro fuel
  induction fuel with
  | zero =>
    intro l hl
    cases l with
    | nil => rfl
    | cons x xs => simp at hl
  | succ fuel ih =>
    intro l hl
    cases l with
    | nil => rfl
    | cons x xs =>
      rw [chunkListAux, List.flatten_cons, ih _ (by simp at hl ⊢; omega)]
      exact List.take_append_drop size (x :: xs)

theorem chunkListAux_mem_le (size : Nat) :
    ∀ (fuel : Nat) (l : List Str) (c : List Str),
      c ∈ chunkListAux size fuel l → c.length ≤ size := by
  intro fuel
  induction fuel with
  | zero =>
    intro l c hc
    cases l <;> simp [chunkListAux] at hc
  | succ fuel ih =>
    intro l c hc
    cases l with
    | nil => simp [chunkListAux] at hc
    | cons x xs =>
      rw [chunkListAux] at hc
      rcases List.mem_cons.mp hc with h | h
      · rw [h]
        simp
      · exact ih _ _ h

theorem chunkListAux_length (size : Nat) (hs : 0 < size) :
    ∀ (fuel : Nat) (l : List Str), l.length ≤ fuel →
      (chunkListAux size fuel l).length = (l.length + size - 1) / size := by
  intro fuel
  induction fuel with
  | zero =>
    intro l hl
    cases l with
    | nil =>
      rw [chunkListAux_nil]
      simp
      rw [Nat.div_eq_of_lt (by omega)]
    | cons x xs => simp at hl
  | succ fuel ih =>
    intro l hl
    cases l with
    | nil =>
      rw [chunkListAux_nil]
      simp
      rw [Nat.div_eq_of_lt (by omega)]
    | cons x xs =>
      rw [chunkListAux]
      rw [List.length_cons, ih _ (by simp at hl ⊢; omega)]
      simp only [List.length_drop, List.length_cons]
      by_cases hle : xs.length + 1 ≤ size
      · have h0 : xs.length + 1 - size = 0 := by omega
        rw [h0]
        have hz : (0 + size - 1) / size = 0 := Nat.div_eq_of_lt (by omega)
        rw [hz]
        have h1 : (xs.length + 1 + size - 1) / size = 1 :=
          Nat.div_eq_of_lt_le (by omega) (by omega)
        rw [h1]
      · have hgt : size < xs.length + 1 := by omega
        have e1 : xs.length + 1 - size + size - 1 = xs.length + 1 - 1 - size + size := by
          omega
        have e2 : xs.length + 1 + size - 1 = xs.length + 1 - 1 - size + size + size := by
          omega
        rw [e1, e2, Nat.add_div_right _ hs, Nat.add_div_right _ hs, Nat.add_div_right _ hs]

theorem chunkListAux_getD_full (size : Nat) (hs : 0 < size) :
    ∀ (fuel : Nat) (l : List Str) (i : Nat), l.length ≤ fuel →
      i + 1 < (chunkListAux size fuel l).length →
      ((chunkListAux size fuel l).getD i []).length = size := by
  intro fuel
  induction fuel with
  | zero =>
    intro l i hl hi
    cases l with
    | nil => simp [chunkListAux] at hi
    | cons x xs => simp at hl
  | succ fuel ih =>
    intro l i hl hi
    cases l with
    | nil => simp [chunkListAux] at hi
    | cons x xs =>
      rw [chunkListAux] at hi ⊢
      cases i with
      | zero =>
        have hrest : chunkListAux size fuel ((x :: xs).drop size) ≠ [] := by
          intro h0
          rw [List.length_cons, h0] at hi
          simp at hi
        have hdrop : (x :: xs).drop size ≠ [] := by
          intro h0
          rw [h0, chunkListAux_nil] at hrest
          exact hrest rfl
        have hlen : size < xs.length + 1 := by
          by_contra hcon
          apply hdrop
          apply List.drop_eq_nil_of_le
          simp
          omega
        simp [List.getD_cons_zero]
        omega
      | succ j =>
        rw [List.getD_cons_succ]
        apply ih
        · simp at hl ⊢
          omega
        · rw [List.length_cons] at hi
          omega

theorem chunkSize_pos (columnType : Str) : 0 < chunkSize columnType := by
  rw [chunkSize]
  split <;> decide

/-- C7: chunking splits a job's values into ordered contiguous batches of
at most the kind's maximum size (70 for brand, 30 for description), with
every batch but the last exactly full; concatenating the batches in order
reproduces the values exactly, and the batch count is the ceiling of the
value count divided by the maximum size. -/
theorem spec_C7 (columnType : Str) (values : List Str) :
    chunkSize (str ("brand")) = 70 ∧
    chunkSize (str ("description")) = 30 ∧
    (chunkList (chunkSize columnType) values).flatten = values ∧
    (∀ c ∈ chunkList (chunkSize columnType) values, c.length ≤ chunkSize columnType) ∧
    (∀ i : Nat, i + 1 < (chunkList (chunkSize columnType) values).length →
      ((chunkList (chunkSize columnType) values).getD i []).length =
        chunkSize columnType) ∧
    (chunkList (chunkSize columnType) values).length =
      (values.length + chunkSize columnType - 1) / chunkSize columnType := by
  have hs := chunkSize_pos columnType
  refine ⟨by decide, by decide, ?_, ?_, ?_, ?_⟩
  · exact chunkListAux_flatten _ hs _ _ (le_refl _)
  · intro c hc
    exact chunkListAux_mem_le _ _ _ _ hc
  · intro i hi
    exact chunkListAux_getD_full _ hs _ _ _ (le_refl _) hi
  · exact chunkListAux_length _ hs _ _ (le_refl _)

theorem spec_C7_witness :
    (List.replicate 30 (str ("v")) ∈
        chunkList (chunkSize (str ("description"))) (List.replicate 31 (str ("v"))) ∧
      (List.replicate 30 (str ("v"))).length ≤ chunkSize (str ("description"))) ∧
    (0 + 1 <
        (chunkList (chunkSize (str ("description"))) (List.replicate 31 (str ("v")))).length ∧
      ((chunkList (chunkSize (str ("description")))
          (List.replicate 31 (str ("v")))).getD 0 []).length =
        chunkSize (str ("description"))) :=
  ⟨⟨by decide,
    (spec_C7 (str ("description")) (List.replicate 31 (str ("v")))).2.2.2.1
      (List.replicate 30 (str ("v"))) (by decide)⟩,
   ⟨by decide,
    (spec_C7 (str ("description")) (List.replicate 31 (str ("v")))).2.2.2.2.1 0 (by decide)⟩⟩

theorem getD_eq_getElem_of_lt {α : Type} (l : List α) (n : Nat) (d : α)
    (h : n < l.length) : l.getD n d = l[n] := by
  rw [List.getD_eq_getElem?_getD, List.getElem?_eq_getElem h]
  rfl

/-- C8: for a column, the extracted positions and values have equal
length, the positions are strictly ascending, a job is emitted (the
position list is non-empty) exactly when some row holds a non-null,
non-blank value, and each extracted value is the cell value at the
corresponding position. -/
theorem spec_C8 (col : List (Option Str)) :
    (jobValues col).length = (jobPositions col).length ∧
    (jobPositions col).Pairwise (· < ·) ∧
    (jobPositions col ≠ [] ↔
      ∃ i : Nat, i < col.length ∧ eligible (col.getD i none) = true) ∧
    (∀ k : Nat, k < (jobPositions col).length →
      (jobValues col).getD k [] =
        (col.getD ((jobPositions col).getD k 0) none).getD []) := by
  refine ⟨List.length_map _ _, ?_, ?_, ?_⟩
  · exact List.Pairwise.sublist (List.filter_sublist _) (List.pairwise_lt_range _)
  · unfold jobPositions
    rw [Ne, List.filter_eq_nil_iff]
    push_neg
    constructor
    · intro ⟨a, ha, he⟩
      exact ⟨a, List.mem_range.mp ha, by simpa using he⟩
    · intro ⟨i, hi, he⟩
      exact ⟨i, List.mem_range.mpr hi, by simpa using he⟩
  · intro k hk
    have hk2 : k < (jobValues col).length := by
      rw [jobValues, List.length_map]
      exact hk
    rw [getD_eq_getElem_of_lt _ _ _ hk2, getD_eq_getElem_of_lt _ _ _ hk]
    simp [jobValues]

theorem spec_C8_witness :
    0 < (jobPositions [some (str ("A"))]).length ∧
    (jobValues [some (str ("A"))]).getD 0 [] =
      ([some (str ("A"))].getD ((jobPositions [some (str ("A"))]).getD 0 0) none).getD [] :=
  ⟨by decide, (spec_C8 [some (str ("A"))]).2.2.2 0 (by decide)⟩

theorem getD_set_of_ne {α : Type} (l : List α) (i j : Nat) (a d : α) (h : i ≠ j) :
    (l.set i a).getD j d = l.getD j d := by
  rw [List.getD_eq_getElem?_getD, List.getD_eq_getElem?_getD, List.getElem?_set_ne h]

theorem getD_set_self_of_lt {α : Type} (l : List α) (i : Nat) (a d : α)
    (h : i < l.length) : (l.set i a).getD i d = a := by
  rw [List.getD_eq_getElem?_getD, List.getElem?_set_self h]
  rfl

theorem writeVals_length :
    ∀ (pairs : List (Nat × Str)) (col : List (Option Str)),
      (writeVals pairs col).length = col.length := by
  intro pairs
  induction pairs with
  | nil => intro col; rfl
  | cons p rest ih =>
    intro col
    obtain ⟨i, v⟩ := p
    rw [writeVals, ih, List.length_set]

theorem writeVals_getD_not_mem :
    ∀ (pairs : List (Nat × Str)) (col : List (Option Str)) (j : Nat),
      j ∉ pairs.map Prod.fst →
      (writeVals pairs col).getD j none = col.getD j none := by
  intro pairs
  induction pairs with
  | nil =>
    intro col j hj
    rfl
  | cons p rest ih =>
    intro col j hj
    obtain ⟨i, v⟩ := p
    rw [List.map_cons, List.mem_cons] at hj
    push_neg at hj
    rw [writeVals, ih _ _ hj.2, getD_set_of_ne _ _ _ _ _ (Ne.symm hj.1)]

theorem writeVals_getD_at :
    ∀ (pairs : List (Nat × Str)) (col : List (Option Str)) (k : Nat),
      k < pairs.length → (pairs.map Prod.fst).Nodup →
      (pairs.getD k (0, [])).1 < col.length →
      (writeVals pairs col).getD (pairs.getD k (0, [])).1 none =
        some (pairs.getD k (0, [])).2 := by
  intro pairs
  induction pairs with
  | nil =>
    intro col k hk hnd hlt
    simp at hk
  | cons p rest ih =>
    intro col k hk hnd hlt
    obtain ⟨i, v⟩ := p
    rw [List.map_cons, List.nodup_cons] at hnd
    rw [writeVals]
    cases k with
    | zero =>
      rw [List.getD_cons_zero] at hlt ⊢
      rw [writeVals_getD_not_mem _ _ _ hnd.1]
      exact getD_set_self_of_lt _ _ _ _ hlt
    | succ j =>
      rw [List.getD_cons_succ] at hlt ⊢
      apply ih
      · simpa using hk
      · exact hnd.2
      · rw [List.length_set]
        exact hlt

/-- C9: corrected values are written back if and only if their count
equals the position count: when equal, each corrected value lands at its
original row position and every position outside the job is untouched;
when unequal, the column is left entirely unchanged. -/
theorem spec_C9 (col : List (Option Str)) (positions : List Nat) (corrected : List Str) :
    (positions.length ≠ corrected.length → writeBack col positions corrected = col) ∧
    (∀ j : Nat, j ∉ positions →
      (writeBack col positions corrected).getD j none = col.getD j none) ∧
    (positions.Nodup → positions.length = corrected.length →
      ∀ k : Nat, k < positions.length → positions.getD k 0 < col.length →
        (writeBack col positions corrected).getD (positions.getD k 0) none =
          some (corrected.getD k [])) := by
  refine ⟨?_, ?_, ?_⟩
  · intro h
    rw [writeBack, if_neg h]
  · intro j hj
    rw [writeBack]
    split_ifs with hlen
    · apply writeVals_getD_not_mem
      rw [List.map_fst_zip _ _ (le_of_eq hlen)]
      exact hj
    · rfl
  · intro hnd hlen k hk hpos
    rw [writeBack, if_pos hlen]
    have hzlen : (positions.zip corrected).length = positions.length := by
      rw [List.length_zip]
      omega
    have hget : (positions.zip corrected).getD k (0, []) =
        (positions.getD k 0, corrected.getD k []) := by
      rw [getD_eq_getElem_of_lt _ _ _ (show k < (positions.zip corrected).length by omega)]
      rw [List.getElem_zip]
      rw [getD_eq_getElem_of_lt _ _ _ hk,
        getD_eq_getElem_of_lt _ _ _ (show k < corrected.length by omega)]
    have hmain := writeVals_getD_at (positions.zip corrected) col k (by omega)
      (by rw [List.map_fst_zip _ _ (le_of_eq hlen)]; exact hnd)
      (by rw [hget]; exact hpos)
    rw [hget] at hmain
    exact hmain

theorem spec_C9_witness :
    writeBack [none, none] [0] [str ("X"), str ("Y")] = [none, none] ∧
    (writeBack [(none : Option Str), none] [1] [str ("X")]).getD 0 none =
      [(none : Option Str), none].getD 0 none ∧
    (writeBack [(none : Option Str), none] [1] [str ("X")]).getD 1 none =
      some (str ("X")) :=
  ⟨(spec_C9 [none, none] [0] [str ("X"), str ("Y")]).1 (by decide),
   (spec_C9 [none, none] [1] [str ("X")]).2.1 0 (by decide),
   (spec_C9 [none, none] [1] [str ("X")]).2.2 (by decide) (by decide) 0 (by decide) (by decide)⟩

theorem reconcile_getD_data (columnType : Str) (chunk : List Str) (raw : Str) (i : Nat)
    (hi : i < (dataLines columnType raw).length) (hic : i < chunk.length) :
    (reconcile columnType chunk raw).getD i [] =
      pyStrip ((dataLines columnType raw).getD i []) := by
  have hplen : ((dataLines columnType raw).map pyStrip).length =
      (dataLines columnType raw).length := List.length_map _ _
  have hpne : (dataLines columnType raw).map pyStrip ≠ [] := by
    intro h0
    rw [h0] at hplen
    simp at hplen
    omega
  rw [reconcile, parsedList_of_ne_nil _ _ _ hpne]
  rcases lt_or_ge chunk.length ((dataLines columnType raw).map pyStrip).length with hgt | hle
  · rw [reconcileParsed_gt _ _ hgt]
    rw [List.getD_eq_getElem?_getD, List.getD_eq_getElem?_getD]
    rw [List.getElem?_take_of_lt hic]
    rw [List.getElem?_map, List.getElem?_eq_getElem hi]
    simp only [Option.map_some', Option.getD_some]
  · rw [reconcileParsed_le _ _ hle]
    rw [List.getD_eq_getElem?_getD, List.getD_eq_getElem?_getD]
    rw [List.getElem?_append_left (by omega)]
    rw [List.getElem?_map, List.getElem?_eq_getElem hi]
    simp only [Option.map_some', Option.getD_some]

theorem reconcile_getD_tail (columnType : Str) (chunk : List Str) (raw : Str) (j : Nat)
    (hj : (dataLines columnType raw).length ≤ j) (hjc : j < chunk.length) :
    (reconcile columnType chunk raw).getD j [] = chunk.getD j [] := by
  have hplen : ((dataLines columnType raw).map pyStrip).length =
      (dataLines columnType raw).length := List.length_map _ _
  by_cases h0 : (dataLines columnType raw).map pyStrip = []
  · rw [reconcile_of_empty_parse _ _ _ (by intro hc; rw [hc] at hjc; simp at hjc) h0]
  · rw [reconcile, parsedList_of_ne_nil _ _ _ h0]
    have hle : ((dataLines columnType raw).map pyStrip).length ≤ chunk.length := by
      omega
    rw [reconcileParsed_le _ _ hle]
    rw [List.getD_eq_getElem?_getD, List.getD_eq_getElem?_getD]
    rw [List.getElem?_append_right (by omega)]
    rw [List.getElem?_drop]
    have hidx : ((dataLines columnType raw).map pyStrip).length +
        (j - ((dataLines columnType raw).map pyStrip).length) = j := by
      omega
    rw [hidx]

/-- C10: every data line taken from the model response is whitespace
stripped before becoming a reconciled value (a line of only spaces
becomes the empty string), while fallback and tail-padding entries are
the original chunk values with whitespace and embedded newlines intact —
not the collapsed versions produced for the prompt payload. -/
theorem spec_C10 :
    (∀ (columnType : Str) (chunk : List Str) (raw : Str) (i : Nat),
      i < (dataLines columnType raw).length → i < chunk.length →
      (reconcile columnType chunk raw).getD i [] =
        pyStrip ((dataLines columnType raw).getD i [])) ∧
    (∀ (columnType : Str) (chunk : List Str) (raw : Str) (j : Nat),
      (dataLines columnType raw).length ≤ j → j < chunk.length →
      (reconcile columnType chunk raw).getD j [] = chunk.getD j []) ∧
    reconcile (str ("brand")) [str ("A"), str ("B"), str ("C")] (str ("X\n   \nY")) =
      [str ("X"), str (""), str ("Y")] ∧
    (reconcile (str ("brand")) [str ("X0"), str ("A\nB")] (str ("brand\nY")) =
      [str ("Y"), str ("A\nB")] ∧
      collapseForPrompt (str ("A\nB")) = str ("A B")) :=
  ⟨reconcile_getD_data, reconcile_getD_tail, by decide, by decide, by decide⟩

theorem spec_C10_witness :
    (reconcile (str ("brand")) [str ("A")] (str ("Q"))).getD 0 [] =
      pyStrip ((dataLines (str ("brand")) (str ("Q"))).getD 0 []) ∧
    (reconcile (str ("brand")) [str ("A"), str ("B")] (str ("Q"))).getD 1 [] =
      ([str ("A"), str ("B")] : List Str).getD 1 [] :=
  ⟨spec_C10.1 (str ("brand")) [str ("A")] (str ("Q")) 0 (by decide) (by decide),
   spec_C10.2.1 (str ("brand")) [str ("A"), str ("B")] (str ("Q")) 1 (by decide) (by decide)⟩
